import Mathlib

/-!
Verification development for the drawio stencil scanner
(`src/drawio_processor.py` of P41_Parser).

Shallow embedding conventions:
* Python strings are `List Char`; `str.lower()` is `List.map Char.toLower`
  (ASCII folding), `str.strip()` trims the whitespace characters recognised
  by `Char.isWhitespace`, `needle in hay` is the substring test `hasSubstr`.
* The Python `re` module is external to the repository; it enters the
  embedding as an oracle (`RegexEngine` / `RegexEngineE`): a function from
  an ignore-case flag, a regex source string and a subject string to the
  list of findall results (resp. to `Except`, modelling `re.error` for an
  uncompilable regex).
* XML elements enter as records of the attributes the scanner reads.
-/

/-- Shorthand turning a Lean string literal into the `List Char`
representation of Python strings used throughout the embedding. -/
def str (s : String) : List Char := s.toList

/-- Embedding of Python `str.lower()` (ASCII case folding). -/
def lower (s : List Char) : List Char := s.map Char.toLower

/-- Embedding of Python `str.strip()`: drop whitespace from both ends. -/
def trim (s : List Char) : List Char :=
  ((s.dropWhile Char.isWhitespace).reverse.dropWhile Char.isWhitespace).reverse

/-- Does `hay` start with `needle`? (helper for the substring test). -/
def startsWithL : List Char → List Char → Bool
  | _, [] => true
  | [], _ :: _ => false
  | a :: as, b :: bs => a == b && startsWithL as bs

/-- Embedding of Python `needle in hay` (substring containment). -/
def hasSubstr : List Char → List Char → Bool
  | [], needle => needle.isEmpty
  | a :: as, needle => startsWithL (a :: as) needle || hasSubstr as needle

/-- Embedding of Python's single-character `c in s` membership test. -/
def containsChar (s : List Char) (c : Char) : Bool := s.any (· == c)

/-- Helper for `splitOnChar`: prepend a character to the first chunk. -/
def consHead (x : Char) : List (List Char) → List (List Char)
  | [] => [[x]]
  | h :: t => (x :: h) :: t

/-- Embedding of Python `s.split(c)` for a one-character separator:
all chunks are kept, empty chunks included. -/
def splitOnChar (c : Char) : List Char → List (List Char)
  | [] => [[]]
  | x :: xs => if x == c then [] :: splitOnChar c xs else consHead x (splitOnChar c xs)

/-- Embedding of `DrawIOProcessor._evaluate_simple_pattern`
(src/drawio_processor.py lines 338-355): split the pattern on `;`,
strip and lower each criterion, and require every non-empty criterion
to occur in `(style + ' ' + value).lower()`. -/
def evaluateSimplePattern (pattern style value : List Char) : Bool :=
  let searchText := lower (style ++ ' ' :: value)
  (splitOnChar ';' pattern).all fun criterion =>
    let c := lower (trim criterion)
    c.isEmpty || hasSubstr searchText c

/-- Tokens produced by the complex-pattern scanner: the `('AND', part)` and
`('NOT', part)` pairs appended to `and_parts` in the source. -/
inductive PTok where
  | andT : List Char → PTok
  | notT : List Char → PTok
deriving DecidableEq

/-- The `if current_part.strip(): and_parts.append(('AND', ...))` flush
used at `!`, at `;` and at end of the or-part (src lines 380, 392, 401). -/
def flushTok (cur : List Char) : List PTok :=
  if (trim cur).isEmpty then [] else [PTok.andT (trim cur)]

/-- Embedding of the character-scanning loop of
`_evaluate_complex_pattern` (src lines 376-402).  The mode flag selects
between the outer scan (`false`, accumulator is `current_part`) and the
inner `while ... or_part[i] != ';'` negation scan entered at a `!`
(`true`, accumulator is `negated_part`).  In the source the negation scan
stops AT the `;` and the outer loop then skips it with an empty
`current_part`; here the `;` is consumed directly, which yields the same
token list. -/
def tokScan : Bool → List Char → List Char → List PTok
  | false, [], cur => flushTok cur
  | false, c :: cs, cur =>
    if c == '!' then flushTok cur ++ tokScan true cs []
    else if c == ';' then flushTok cur ++ tokScan false cs []
    else tokScan false cs (cur ++ [c])
  | true, [], neg => [PTok.notT (trim neg)]
  | true, c :: cs, neg =>
    if c == ';' then PTok.notT (trim neg) :: tokScan false cs []
    else tokScan true cs (neg ++ [c])

/-- Tokenizing one or-part: the outer scan started with an empty
`current_part`. -/
def tokenizePattern (orPart : List Char) : List PTok := tokScan false orPart []

/-- Evaluation of one token against the search text (src lines 406-414):
an `AND` token passes when empty or contained, a `NOT` token passes when
empty or not contained. -/
def evalPTok (searchText : List Char) : PTok → Bool
  | PTok.andT p => p.isEmpty || hasSubstr searchText (lower p)
  | PTok.notT p => p.isEmpty || !(hasSubstr searchText (lower p))

/-- Embedding of `DrawIOProcessor._evaluate_complex_pattern`
(src lines 357-419): split on `|`, tokenize each or-part, and succeed
when some or-part has all its tokens pass. -/
def evaluateComplexPattern (pattern style value : List Char) : Bool :=
  let searchText := lower (style ++ ' ' :: value)
  (splitOnChar '|' pattern).any fun orPart =>
    (tokenizePattern orPart).all (evalPTok searchText)

/-- The per-pattern dispatch inside `_element_matches_template`
(src lines 325-334): patterns containing `|` or `!` go to the complex
evaluator, the rest to the simple one. -/
def evaluatePattern (pattern style value : List Char) : Bool :=
  if containsChar pattern '|' || containsChar pattern '!' then
    evaluateComplexPattern pattern style value
  else
    evaluateSimplePattern pattern style value

example : evaluateSimplePattern (str "a;b") (str "xay") (str "b z") = true := by decide
example : evaluateSimplePattern (str "a;b") (str "xay") (str "") = false := by decide
example : evaluateComplexPattern (str "a;b") (str "xay") (str "b z") = true := by decide
example : evaluateComplexPattern (str "a|b") (str "only b") (str "") = true := by decide
example : evaluateComplexPattern (str "a;!b") (str "has a only") (str "") = true := by decide
example : evaluateComplexPattern (str "a;!b") (str "has a and b") (str "") = false := by decide
example : evaluatePattern (str "a:b") (str "xay") (str "b z") = false := by decide

/-- Chunks of `splitOnChar` are a partition: splitting a string free of the
separator returns the string itself as the only chunk. -/
theorem splitOnChar_of_not_mem {c : Char} {s : List Char} (h : c ∉ s) :
    splitOnChar c s = [s] := by
  induction s with
  | nil => rfl
  | cons x xs ih =>
    simp only [List.mem_cons, not_or] at h
    have hx : (x == c) = false := beq_eq_false_iff_ne.mpr (Ne.symm h.1)
    simp [splitOnChar, hx, ih h.2, consHead]

/-- Splitting around the first separator occurrence. -/
theorem splitOnChar_append {c : Char} {a : List Char} (b : List Char) (h : c ∉ a) :
    splitOnChar c (a ++ c :: b) = a :: splitOnChar c b := by
  induction a with
  | nil => simp [splitOnChar]
  | cons x xs ih =>
    simp only [List.mem_cons, not_or] at h
    have hx : (x == c) = false := beq_eq_false_iff_ne.mpr (Ne.symm h.1)
    simp [splitOnChar, hx, ih h.2, consHead]

/-- Scanning over delimiter-free, negation-free characters just moves them
into the `current_part` accumulator. -/
theorem tokScan_false_accum {a : List Char} (hs : ';' ∉ a) (he : '!' ∉ a) :
    ∀ (r cur : List Char), tokScan false (a ++ r) cur = tokScan false r (cur ++ a) := by
  induction a with
  | nil => intro r cur; simp
  | cons x xs ih =>
    intro r cur
    simp only [List.mem_cons, not_or] at hs he
    have hx1 : (x == '!') = false := beq_eq_false_iff_ne.mpr (Ne.symm he.1)
    have hx2 : (x == ';') = false := beq_eq_false_iff_ne.mpr (Ne.symm hs.1)
    simp only [List.cons_append, tokScan, hx1, hx2, Bool.false_eq_true, if_false,
      List.append_eq]
    rw [ih hs.2 he.2]
    simp

/-- The negation scan with no `;` ahead runs to the end of the or-part and
yields a single `NOT` token. -/
theorem tokScan_true_no_semi {b : List Char} (h : ';' ∉ b) :
    ∀ neg : List Char, tokScan true b neg = [PTok.notT (trim (neg ++ b))] := by
  induction b with
  | nil => intro neg; simp [tokScan]
  | cons x xs ih =>
    intro neg
    simp only [List.mem_cons, not_or] at h
    have hx : (x == ';') = false := beq_eq_false_iff_ne.mpr (Ne.symm h.1)
    simp only [tokScan, hx, Bool.false_eq_true, if_false]
    rw [ih h.2]
    simp

/-- The negation scan stops at the next `;`: it consumes exactly the
characters before it and resumes the outer scan after it. -/
theorem tokScan_true_semi {a : List Char} (b : List Char) (h : ';' ∉ a) :
    ∀ neg : List Char,
      tokScan true (a ++ ';' :: b) neg = PTok.notT (trim (neg ++ a)) :: tokScan false b [] := by
  induction a with
  | nil => intro neg; simp [tokScan]
  | cons x xs ih =>
    intro neg
    simp only [List.mem_cons, not_or] at h
    have hx : (x == ';') = false := beq_eq_false_iff_ne.mpr (Ne.symm h.1)
    simp only [List.cons_append, tokScan, hx, Bool.false_eq_true, if_false,
      List.append_eq]
    rw [ih h.2]
    simp

/-- Reference token list for a negation-free or-part: one `AND` token per
non-blank `;`-separated chunk. -/
def andTokens (s : List Char) : List PTok := ((splitOnChar ';' s).map flushTok).flatten

/-- On a negation-free or-part the scanner produces exactly the `AND`
tokens of the `;`-separated chunks. -/
theorem tokScan_false_eq_andTokens {s : List Char} (h : '!' ∉ s) :
    ∀ cur : List Char, ';' ∉ cur → '!' ∉ cur →
      tokScan false s cur = andTokens (cur ++ s) := by
  induction s with
  | nil =>
    intro cur hc _
    simp [tokScan, andTokens, splitOnChar_of_not_mem hc]
  | cons x xs ih =>
    intro cur hc hc2
    simp only [List.mem_cons, not_or] at h
    have hx1 : (x == '!') = false := beq_eq_false_iff_ne.mpr (Ne.symm h.1)
    by_cases hsemi : x = ';'
    · subst hsemi
      have e1 : tokScan false (';' :: xs) cur = flushTok cur ++ tokScan false xs [] := by
        simp [tokScan, hx1]
      rw [e1, ih h.2 [] (List.not_mem_nil _) (List.not_mem_nil _)]
      simp [andTokens, splitOnChar_append xs hc]
    · have hx2 : (x == ';') = false := beq_eq_false_iff_ne.mpr hsemi
      have e1 : tokScan false (x :: xs) cur = tokScan false xs (cur ++ [x]) := by
        simp [tokScan, hx1, hx2]
      have hcur1 : ';' ∉ cur ++ [x] := by
        intro hm
        rcases List.mem_append.mp hm with hm | hm
        · exact hc hm
        · exact hsemi (List.mem_singleton.mp hm).symm
      have hcur2 : '!' ∉ cur ++ [x] := by
        intro hm
        rcases List.mem_append.mp hm with hm | hm
        · exact hc2 hm
        · exact h.1 (List.mem_singleton.mp hm)
      rw [e1, ih h.2 (cur ++ [x]) hcur1 hcur2]
      simp

/-- Lowering preserves (non-)emptiness. -/
theorem lower_isEmpty (s : List Char) : (lower s).isEmpty = s.isEmpty := by
  cases s <;> rfl

/-- The `all`-evaluation of the flushed token of one chunk coincides with
the simple evaluator's per-criterion test. -/
theorem flushTok_all_evalPTok (st c : List Char) :
    ((flushTok c).all (evalPTok st))
      = ((lower (trim c)).isEmpty || hasSubstr st (lower (trim c))) := by
  cases h : (trim c).isEmpty with
  | true => simp [flushTok, h, lower_isEmpty]
  | false => simp [flushTok, h, evalPTok, lower_isEmpty]

/-- Token-list evaluation of a chunk list agrees with the simple
evaluator's criterion-by-criterion test. -/
theorem andTokens_all (st : List Char) (parts : List (List Char)) :
    ((parts.map flushTok).flatten).all (evalPTok st)
      = parts.all fun c => (lower (trim c)).isEmpty || hasSubstr st (lower (trim c)) := by
  induction parts with
  | nil => rfl
  | cons p ps ih => simp [List.all_append, ih, flushTok_all_evalPTok st p]

/-- Claim C1: for every pattern containing neither a `|` nor a `!` and
every style and value, the general complex-pattern evaluator
(`_evaluate_complex_pattern`) and the simple pure-AND fast path
(`_evaluate_simple_pattern`) return the same boolean. -/
theorem c1_simple_fast_path_equiv (pattern style value : List Char)
    (h1 : '|' ∉ pattern) (h2 : '!' ∉ pattern) :
    evaluateComplexPattern pattern style value
      = evaluateSimplePattern pattern style value := by
  unfold evaluateComplexPattern evaluateSimplePattern
  rw [splitOnChar_of_not_mem h1]
  simp only [List.any_cons, List.any_nil, Bool.or_false, tokenizePattern]
  rw [tokScan_false_eq_andTokens h2 [] (List.not_mem_nil _) (List.not_mem_nil _)]
  simp only [List.nil_append, andTokens, andTokens_all]

/-- Witness for C1 at a concrete pattern with two AND terms. -/
theorem c1_simple_fast_path_equiv_witness :
    evaluateComplexPattern (str "net; switch") (str "shape=stencil(net)") (str "Switch 1")
      = evaluateSimplePattern (str "net; switch") (str "shape=stencil(net)") (str "Switch 1") :=
  c1_simple_fast_path_equiv _ _ _ (by decide) (by decide)

/-- Claim C3 (counterexample): the code does NOT accept `:` as an
AND-term delimiter.  The spec's example `evaluate("a:b", "xay b z") → true`
fails: with search text `"xay b z"` (style `"xay"`, value `"b z"`) the
pattern `"a:b"` is one literal criterion, is not a substring, and the
evaluator returns `false`. -/
theorem c3_colon_delimiter_counterexample :
    evaluatePattern (str "a:b") (str "xay") (str "b z") = false := by decide

/-- Claim C3 (amended): the evaluator's AND-term delimiter is `;` only
(`:` is an ordinary literal character): `evaluate("a;b", "xay b z")` is
true (both substrings present), `evaluate("a;b", "xay")` is false
(missing `b`), and `evaluate("a:b", "xay b z")` is false because `a:b`
is a single literal term. -/
theorem c3_semicolon_delimiter :
    evaluatePattern (str "a;b") (str "xay") (str "b z") = true
      ∧ evaluatePattern (str "a;b") (str "xay") (str "") = false
      ∧ evaluatePattern (str "a:b") (str "xay") (str "b z") = false := by decide

/-- `trim` of the empty string. -/
theorem trim_nil : trim [] = [] := rfl

/-- Flushing an empty `current_part` emits nothing. -/
theorem flushTok_nil : flushTok [] = [] := rfl

/-- A non-empty list is not `isEmpty`. -/
theorem isEmpty_false_of_ne_nil {l : List Char} (h : l ≠ []) : l.isEmpty = false := by
  cases l with
  | nil => exact absurd rfl h
  | cons a as => rfl

/-- `containsChar` agrees with membership (positive direction). -/
theorem containsChar_eq_true {s : List Char} {c : Char} (h : c ∈ s) :
    containsChar s c = true := by
  unfold containsChar
  rw [List.any_eq_true]
  exact ⟨c, h, by simp⟩

/-- `containsChar` agrees with membership (negative direction). -/
theorem containsChar_eq_false {s : List Char} {c : Char} (h : c ∉ s) :
    containsChar s c = false := by
  unfold containsChar
  rw [List.any_eq_false]
  intro x hx hpx
  exact h ((beq_iff_eq.mp hpx) ▸ hx)

/-- Tokens of `!a;b`: a `NOT` for the text before the delimiter and an
`AND` for the term after it. -/
theorem tokenize_bang_term {a b : List Char} (haS : ';' ∉ a)
    (hbS : ';' ∉ b) (hbE : '!' ∉ b) (hB : trim b ≠ []) :
    tokenizePattern ('!' :: a ++ ';' :: b) = [PTok.notT (trim a), PTok.andT (trim b)] := by
  unfold tokenizePattern
  have e0 : tokScan false ('!' :: (a ++ ';' :: b)) [] =
      flushTok [] ++ tokScan true (a ++ ';' :: b) [] := by
    simp [tokScan]
  rw [List.cons_append, e0, tokScan_true_semi b haS,
    tokScan_false_eq_andTokens hbE [] (List.not_mem_nil _) (List.not_mem_nil _)]
  simp [andTokens, splitOnChar_of_not_mem hbS, flushTok, isEmpty_false_of_ne_nil hB,
    trim_nil]

/-- Tokens of a pure negated or-part `!a`. -/
theorem tokenize_bang_only {a : List Char} (haS : ';' ∉ a) :
    tokenizePattern ('!' :: a) = [PTok.notT (trim a)] := by
  unfold tokenizePattern
  have e0 : tokScan false ('!' :: a) [] = flushTok [] ++ tokScan true a [] := by
    simp [tokScan]
  rw [e0, tokScan_true_no_semi haS]
  simp [flushTok_nil]

/-- Tokens of a plain delimiter-free, negation-free or-part. -/
theorem tokenize_plain {b : List Char} (hbS : ';' ∉ b) (hbE : '!' ∉ b) :
    tokenizePattern b = flushTok b := by
  unfold tokenizePattern
  rw [tokScan_false_eq_andTokens hbE [] (List.not_mem_nil _) (List.not_mem_nil _)]
  simp [andTokens, splitOnChar_of_not_mem hbS]

/-- Claim C2: negation scanning consumes only up to the next `;`
delimiter, so `!a;b` evaluates as (NOT contains `a`) AND (contains `b`),
and `!a|b` as two or-groups: (NOT contains `a`) OR (contains `b`). -/
theorem c2_negation_stops_at_delimiter (style value a b : List Char)
    (haS : ';' ∉ a) (haB : '|' ∉ a)
    (hbS : ';' ∉ b) (hbB : '|' ∉ b) (hbE : '!' ∉ b)
    (hA : trim a ≠ []) (hB : trim b ≠ []) :
    evaluatePattern ('!' :: a ++ ';' :: b) style value
      = (!(hasSubstr (lower (style ++ ' ' :: value)) (lower (trim a)))
          && hasSubstr (lower (style ++ ' ' :: value)) (lower (trim b)))
    ∧ evaluatePattern ('!' :: a ++ '|' :: b) style value
      = (!(hasSubstr (lower (style ++ ' ' :: value)) (lower (trim a)))
          || hasSubstr (lower (style ++ ' ' :: value)) (lower (trim b))) := by
  constructor
  · have hp1 : '|' ∉ ('!' :: a ++ ';' :: b) := by
      intro hm
      simp only [List.cons_append, List.mem_cons, List.mem_append] at hm
      rcases hm with h | h | h | h
      · exact absurd h (by decide)
      · exact haB h
      · exact absurd h (by decide)
      · exact hbB h
    have hbmem : '!' ∈ ('!' :: a ++ ';' :: b) :=
      List.mem_append.mpr (Or.inl (List.mem_cons_self _ _))
    unfold evaluatePattern
    rw [containsChar_eq_true hbmem]
    simp only [Bool.or_true, if_true]
    unfold evaluateComplexPattern
    rw [splitOnChar_of_not_mem hp1]
    simp only [List.any_cons, List.any_nil, Bool.or_false]
    rw [tokenize_bang_term haS hbS hbE hB]
    simp [evalPTok, isEmpty_false_of_ne_nil hA, isEmpty_false_of_ne_nil hB]
  · have hp2a : '|' ∉ ('!' :: a) := by
      intro hm
      rcases List.mem_cons.mp hm with h | h
      · exact absurd h (by decide)
      · exact haB h
    have hbmem : '!' ∈ ('!' :: a ++ '|' :: b) :=
      List.mem_append.mpr (Or.inl (List.mem_cons_self _ _))
    unfold evaluatePattern
    rw [containsChar_eq_true hbmem]
    simp only [Bool.or_true, if_true]
    unfold evaluateComplexPattern
    rw [splitOnChar_append b hp2a, splitOnChar_of_not_mem hbB]
    simp only [List.any_cons, List.any_nil, Bool.or_false]
    rw [tokenize_bang_only haS, tokenize_plain hbS hbE]
    simp [evalPTok, flushTok, isEmpty_false_of_ne_nil hA, isEmpty_false_of_ne_nil hB]

/-- Witness for C2: `!a;b` and `!a|b` against search text `"zz b "`. -/
theorem c2_negation_stops_at_delimiter_witness :
    (evaluatePattern ('!' :: str "a" ++ ';' :: str "b") (str "zz b") (str "")
        = (!(hasSubstr (lower (str "zz b" ++ ' ' :: str "")) (lower (trim (str "a"))))
            && hasSubstr (lower (str "zz b" ++ ' ' :: str "")) (lower (trim (str "b")))))
    ∧ (evaluatePattern ('!' :: str "a" ++ '|' :: str "b") (str "zz b") (str "")
        = (!(hasSubstr (lower (str "zz b" ++ ' ' :: str "")) (lower (trim (str "a"))))
            || hasSubstr (lower (str "zz b" ++ ' ' :: str "")) (lower (trim (str "b"))))) :=
  c2_negation_stops_at_delimiter (str "zz b") (str "") (str "a") (str "b")
    (by decide) (by decide) (by decide) (by decide) (by decide) (by decide) (by decide)

/-- Tokens of `a!b` and of `a;!b` coincide: an `AND` for `a` and a `NOT`
for `b`. -/
theorem tokenize_term_bang {a b : List Char} (haS : ';' ∉ a) (haE : '!' ∉ a)
    (hA : trim a ≠ []) (hbS : ';' ∉ b) :
    tokenizePattern (a ++ '!' :: b) = [PTok.andT (trim a), PTok.notT (trim b)]
    ∧ tokenizePattern (a ++ ';' :: '!' :: b) = [PTok.andT (trim a), PTok.notT (trim b)] := by
  constructor
  · unfold tokenizePattern
    rw [tokScan_false_accum haS haE ('!' :: b) []]
    simp only [List.nil_append]
    have e0 : tokScan false ('!' :: b) a = flushTok a ++ tokScan true b [] := by
      simp [tokScan]
    rw [e0, tokScan_true_no_semi hbS]
    simp [flushTok, isEmpty_false_of_ne_nil hA]
  · unfold tokenizePattern
    rw [tokScan_false_accum haS haE (';' :: '!' :: b) []]
    simp only [List.nil_append]
    have e0 : tokScan false (';' :: '!' :: b) a = flushTok a ++ tokScan false ('!' :: b) [] := by
      simp [tokScan]
    have e1 : tokScan false ('!' :: b) [] = flushTok [] ++ tokScan true b [] := by
      simp [tokScan]
    rw [e0, e1, tokScan_true_no_semi hbS]
    simp [flushTok, isEmpty_false_of_ne_nil hA, flushTok_nil, trim_nil]

/-- Claim C10: a `!` occurring mid-term acts as a term boundary even
without a preceding delimiter: `a!b` evaluates exactly like `a;!b`,
namely as (contains `a`) AND (NOT contains `b`). -/
theorem c10_bang_is_term_boundary (style value a b : List Char)
    (haS : ';' ∉ a) (haB : '|' ∉ a) (haE : '!' ∉ a)
    (hbS : ';' ∉ b) (hbB : '|' ∉ b)
    (hA : trim a ≠ []) (hB : trim b ≠ []) :
    evaluatePattern (a ++ '!' :: b) style value
        = evaluatePattern (a ++ ';' :: '!' :: b) style value
    ∧ evaluatePattern (a ++ '!' :: b) style value
        = (hasSubstr (lower (style ++ ' ' :: value)) (lower (trim a))
            && !(hasSubstr (lower (style ++ ' ' :: value)) (lower (trim b)))) := by
  have hbang1 : '!' ∈ a ++ '!' :: b := List.mem_append.mpr (Or.inr (List.mem_cons_self _ _))
  have hbang2 : '!' ∈ a ++ ';' :: '!' :: b :=
    List.mem_append.mpr (Or.inr (List.mem_cons.mpr (Or.inr (List.mem_cons_self _ _))))
  have hp1 : '|' ∉ (a ++ '!' :: b) := by
    intro hm
    rcases List.mem_append.mp hm with h | h
    · exact haB h
    · rcases List.mem_cons.mp h with h | h
      · exact absurd h (by decide)
      · exact hbB h
  have hp2 : '|' ∉ (a ++ ';' :: '!' :: b) := by
    intro hm
    rcases List.mem_append.mp hm with h | h
    · exact haB h
    · rcases List.mem_cons.mp h with h | h
      · exact absurd h (by decide)
      · rcases List.mem_cons.mp h with h | h
        · exact absurd h (by decide)
        · exact hbB h
  have e1 : evaluatePattern (a ++ '!' :: b) style value
      = (hasSubstr (lower (style ++ ' ' :: value)) (lower (trim a))
          && !(hasSubstr (lower (style ++ ' ' :: value)) (lower (trim b)))) := by
    unfold evaluatePattern
    rw [containsChar_eq_true hbang1]
    simp only [Bool.or_true, if_true]
    unfold evaluateComplexPattern
    rw [splitOnChar_of_not_mem hp1]
    simp only [List.any_cons, List.any_nil, Bool.or_false]
    rw [(tokenize_term_bang haS haE hA hbS).1]
    simp [evalPTok, isEmpty_false_of_ne_nil hA, isEmpty_false_of_ne_nil hB]
  have e2 : evaluatePattern (a ++ ';' :: '!' :: b) style value
      = (hasSubstr (lower (style ++ ' ' :: value)) (lower (trim a))
          && !(hasSubstr (lower (style ++ ' ' :: value)) (lower (trim b)))) := by
    unfold evaluatePattern
    rw [containsChar_eq_true hbang2]
    simp only [Bool.or_true, if_true]
    unfold evaluateComplexPattern
    rw [splitOnChar_of_not_mem hp2]
    simp only [List.any_cons, List.any_nil, Bool.or_false]
    rw [(tokenize_term_bang haS haE hA hbS).2]
    simp [evalPTok, isEmpty_false_of_ne_nil hA, isEmpty_false_of_ne_nil hB]
  exact ⟨e1.trans e2.symm, e1⟩

/-- Witness for C10: `a!b` versus `a;!b` against search text `"xa x "`. -/
theorem c10_bang_is_term_boundary_witness :
    (evaluatePattern (str "a" ++ '!' :: str "b") (str "xa x") (str "")
        = evaluatePattern (str "a" ++ ';' :: '!' :: str "b") (str "xa x") (str ""))
    ∧ (evaluatePattern (str "a" ++ '!' :: str "b") (str "xa x") (str "")
        = (hasSubstr (lower (str "xa x" ++ ' ' :: str "")) (lower (trim (str "a")))
            && !(hasSubstr (lower (str "xa x" ++ ' ' :: str "")) (lower (trim (str "b")))))) :=
  c10_bang_is_term_boundary (str "xa x") (str "") (str "a") (str "b")
    (by decide) (by decide) (by decide) (by decide) (by decide) (by decide) (by decide)

/-- A drawio XML node as the scanner reads it: the tag plus the
attributes fetched with `element.get(..., '')` and the `mxGeometry`
child found with `element.find` (src lines 303-311, 434-444). -/
structure MxElement where
  tag : List Char
  id : List Char
  style : List Char
  value : List Char
  parent : List Char
  vertex : List Char
  geometry : Option (List Char)
deriving DecidableEq

/-- One template entry of the YAML template file as the code reads it:
the optional `patterns` list, the optional `parsers` name/regex pairs
(the per-item dicts flattened in iteration order), and the optional
`schema` tag. -/
structure TemplateConfig where
  patterns : Option (List (List Char))
  parsers : Option (List (List Char × List Char))
  schema : Option (List Char)
deriving DecidableEq

/-- The external Python `re` engine, as used by the code: `findall ci p v`
stands for `re.findall(p, v, re.IGNORECASE if ci else 0)`.  Its result
list is whatever the engine produces (all non-overlapping matches in
order of occurrence, group-1 text when the regex has groups). -/
structure RegexEngine where
  findall : Bool → List Char → List Char → List (List Char)

/-- A fallible view of the same engine: `Except.error` models the
`re.error` raised on an uncompilable regex. -/
structure RegexEngineE where
  findall : Bool → List Char → List Char → Except (List Char) (List (List Char))

/-- The match record built by `_create_object_info` (src lines 421-444). -/
structure ObjInfo where
  id : List Char
  value : List Char
  style : List Char
  parent : List Char
  vertex : List Char
  geometry : Option (List Char)
  matchedType : List Char
  schema : List Char
  extractedData : List (List Char × List (List Char))
deriving DecidableEq

/-- Python dict assignment `d[k] = v`: overwrite in place, else append. -/
def setKey (k : List Char) (v : List (List Char)) :
    List (List Char × List (List Char)) → List (List Char × List (List Char))
  | [] => [(k, v)]
  | (k', v') :: rest => if k' = k then (k, v) :: rest else (k', v') :: setKey k v rest

/-- Python dict lookup `d.get(k)`. -/
def getKey (k : List Char) : List (List Char × List (List Char)) → Option (List (List Char))
  | [] => none
  | (k', v) :: rest => if k' = k then some v else getKey k rest

/-- The loop of `_extract_data_from_element` (src lines 454-462): for each
`(data_name, regex_pattern)` pair run
`re.findall(regex_pattern, value, re.IGNORECASE)` and store the matches
under `data_name` only when the list is non-empty. -/
def extractLoop (eng : RegexEngine) (value : List Char)
    (acc : List (List Char × List (List Char))) :
    List (List Char × List Char) → List (List Char × List (List Char))
  | [] => acc
  | (name, rgx) :: rest =>
    let ms := eng.findall true rgx value
    if ms.isEmpty then extractLoop eng value acc rest
    else extractLoop eng value (setKey name ms acc) rest

/-- Embedding of `DrawIOProcessor._extract_data_from_element`
(src lines 446-463): nothing is extracted when the config has no
`parsers` key. -/
def extractDataFromElement (eng : RegexEngine) (value : List Char)
    (cfg : TemplateConfig) : List (List Char × List (List Char)) :=
  match cfg.parsers with
  | none => []
  | some ps => extractLoop eng value [] ps

/-- Embedding of `DrawIOProcessor._create_object_info`
(src lines 421-444). -/
def createObjectInfo (eng : RegexEngine) (e : MxElement) (nm : List Char)
    (cfg : TemplateConfig) : ObjInfo :=
  { id := e.id, value := e.value, style := e.style, parent := e.parent,
    vertex := e.vertex, geometry := e.geometry, matchedType := nm,
    schema := cfg.schema.getD (str "none"),
    extractedData := extractDataFromElement eng e.value cfg }

/-- The first-true-pattern loop of `_element_matches_template`
(src lines 326-334): stop at the first pattern that evaluates true. -/
def matchesAnyPattern (style value : List Char) : List (List Char) → Bool
  | [] => false
  | p :: ps => if evaluatePattern p style value then true else matchesAnyPattern style value ps

/-- Embedding of `DrawIOProcessor._element_matches_template`
(src lines 316-336): a config without a `patterns` key matches nothing. -/
def elementMatchesTemplate (style value : List Char) (cfg : TemplateConfig) : Bool :=
  match cfg.patterns with
  | none => false
  | some ps => matchesAnyPattern style value ps

/-- The candidate filter of `_find_objects_for_template`
(src lines 304-309): an `mxCell` whose lowered style contains the
stencil marker. -/
def isCandidate (e : MxElement) : Bool :=
  e.tag == str "mxCell" && hasSubstr (lower e.style) (str "shape=stencil(")

/-- The element loop of `_find_objects_for_template` (src lines 295-314)
over the flat `root.iter()` node sequence. -/
def findObjectsForTemplate (eng : RegexEngine) (cfg : TemplateConfig)
    (nm : List Char) : List MxElement → List ObjInfo
  | [] => []
  | e :: rest =>
    if isCandidate e && elementMatchesTemplate e.style e.value cfg then
      createObjectInfo eng e nm cfg :: findObjectsForTemplate eng cfg nm rest
    else
      findObjectsForTemplate eng cfg nm rest

/-- `_find_objects_for_template` including its own
`parse_drawio_structure` call (src lines 297-300): a document that
failed to parse (`none`) yields the empty record list. -/
def findObjectsForTemplateTop (eng : RegexEngine) (cfg : TemplateConfig)
    (nm : List Char) (doc : Option (List MxElement)) : List ObjInfo :=
  match doc with
  | none => []
  | some els => findObjectsForTemplate eng cfg nm els

/-- The per-template loop of `find_stencils_by_all_templates`
(src lines 277-284): one result entry per template, in template order. -/
def scanLoaded (eng : RegexEngine) (doc : Option (List MxElement)) :
    List (List Char × TemplateConfig) → List (List Char × List ObjInfo)
  | [] => []
  | (nm, cfg) :: ts => (nm, findObjectsForTemplateTop eng cfg nm doc) :: scanLoaded eng doc ts

/-- Embedding of `DrawIOProcessor.find_stencils_by_all_templates`
(src lines 254-284).  `selectedFile`/`filename` model the
`self.selected_file` fallback; `templates` is the result of
`load_stencil_templates` (`none` for a missing/unreadable file,
`some []` for a file that deserializes to an empty mapping — both are
falsy in the `if not templates` check); `doc` is the result of
`parse_drawio_structure` (the same for every template, since the
filename does not change). -/
def findStencilsByAllTemplates (eng : RegexEngine)
    (selectedFile filename : Option (List Char))
    (templates : Option (List (List Char × TemplateConfig)))
    (doc : Option (List MxElement)) : List (List Char × List ObjInfo) :=
  match (match filename with | none => selectedFile | some f => some f) with
  | none => []
  | some _ =>
    match templates with
    | none => []
    | some ts => if ts.isEmpty then [] else scanLoaded eng doc ts

/-- Looking up the key just written finds the new value. -/
theorem getKey_setKey_eq (k : List Char) (v : List (List Char)) :
    ∀ l, getKey k (setKey k v l) = some v := by
  intro l
  induction l with
  | nil => simp [setKey, getKey]
  | cons p rest ih =>
    obtain ⟨k', v'⟩ := p
    by_cases h : k' = k
    · simp [setKey, getKey, h]
    · simp [setKey, getKey, h, ih]

/-- Writing one key leaves lookups of other keys unchanged. -/
theorem getKey_setKey_ne {k' k : List Char} (h : k' ≠ k) (v : List (List Char)) :
    ∀ l, getKey k (setKey k' v l) = getKey k l := by
  intro l
  induction l with
  | nil => simp [setKey, getKey, h]
  | cons p rest ih =>
    obtain ⟨k'', v''⟩ := p
    by_cases h2 : k'' = k'
    · simp [setKey, getKey, h2, h]
    · by_cases h3 : k'' = k
      · simp [setKey, getKey, h2, h3, Ne.symm h]
      · simp [setKey, getKey, h2, h3, ih]

/-- A list with `isEmpty = false` is not nil. -/
theorem ne_nil_of_isEmpty_false {α : Type} {l : List α} (h : l.isEmpty = false) :
    l ≠ [] := by
  cases l with
  | nil => exact absurd h (by simp)
  | cons a as => exact List.cons_ne_nil _ _

/-- If every regex recorded under `name` finds nothing, the extraction
loop leaves `name`'s binding unchanged. -/
theorem extractLoop_getKey_none (eng : RegexEngine) (value name : List Char) :
    ∀ (ps : List (List Char × List Char)) (acc : List (List Char × List (List Char))),
      (∀ r, (name, r) ∈ ps → eng.findall true r value = []) →
      getKey name (extractLoop eng value acc ps) = getKey name acc := by
  intro ps
  induction ps with
  | nil => intro acc _; rfl
  | cons pr rest ih =>
    intro acc h
    obtain ⟨n, r⟩ := pr
    by_cases hn : n = name
    · subst hn
      have hz : eng.findall true r value = [] := h r (List.mem_cons_self _ _)
      simp only [extractLoop, hz, List.isEmpty_nil, if_true]
      exact ih acc (fun r' hr' => h r' (List.mem_cons_of_mem _ hr'))
    · cases hms : (eng.findall true r value).isEmpty with
      | true =>
        simp only [extractLoop, hms, if_true]
        exact ih acc (fun r' hr' => h r' (List.mem_cons_of_mem _ hr'))
      | false =>
        simp only [extractLoop, hms, Bool.false_eq_true, if_false]
        rw [ih _ (fun r' hr' => h r' (List.mem_cons_of_mem _ hr'))]
        exact getKey_setKey_ne hn _ acc

/-- Every binding the extraction loop produces comes from some pair of
the original parser list whose regex found a non-empty match list. -/
theorem extractLoop_getKey_sound (eng : RegexEngine) (value name : List Char)
    (ps0 : List (List Char × List Char)) :
    ∀ (ps : List (List Char × List Char)) (acc : List (List Char × List (List Char))),
      (∀ pr, pr ∈ ps → pr ∈ ps0) →
      (∀ ms, getKey name acc = some ms →
        ms ≠ [] ∧ ∃ r, (name, r) ∈ ps0 ∧ ms = eng.findall true r value) →
      ∀ ms, getKey name (extractLoop eng value acc ps) = some ms →
        ms ≠ [] ∧ ∃ r, (name, r) ∈ ps0 ∧ ms = eng.findall true r value := by
  intro ps
  induction ps with
  | nil => intro acc _ hacc; exact hacc
  | cons pr rest ih =>
    intro acc hsub hacc
    obtain ⟨n, r⟩ := pr
    cases hms : (eng.findall true r value).isEmpty with
    | true =>
      simp only [extractLoop, hms, if_true]
      exact ih acc (fun q hq => hsub q (List.mem_cons_of_mem _ hq)) hacc
    | false =>
      simp only [extractLoop, hms, Bool.false_eq_true, if_false]
      refine ih (setKey n (eng.findall true r value) acc)
        (fun q hq => hsub q (List.mem_cons_of_mem _ hq)) ?_
      intro ms hms'
      by_cases hn : n = name
      · subst hn
        rw [getKey_setKey_eq] at hms'
        injection hms' with hinj
        exact ⟨hinj ▸ ne_nil_of_isEmpty_false hms, r,
          hsub _ (List.mem_cons_self _ _), hinj.symm⟩
      · rw [getKey_setKey_ne hn] at hms'
        exact hacc ms hms'

/-- Claim C4: extraction runs each regex with the case-insensitive flag
and binds the engine's full in-order match list to the field name only
when at least one match exists; a name all of whose regexes matched zero
times is entirely absent from the output (lookup `none`), and every
present binding is the non-empty findall result of one of that name's
configured regexes. -/
theorem c4_extraction_binding (eng : RegexEngine) (value : List Char)
    (cfg : TemplateConfig) (ps : List (List Char × List Char)) (name : List Char)
    (hps : cfg.parsers = some ps) :
    ((∀ r, (name, r) ∈ ps → eng.findall true r value = []) →
        getKey name (extractDataFromElement eng value cfg) = none)
    ∧ (∀ ms, getKey name (extractDataFromElement eng value cfg) = some ms →
        ms ≠ [] ∧ ∃ r, (name, r) ∈ ps ∧ ms = eng.findall true r value) := by
  unfold extractDataFromElement
  rw [hps]
  constructor
  · intro h
    rw [extractLoop_getKey_none eng value name ps [] h]
    rfl
  · intro ms hms
    exact extractLoop_getKey_sound eng value name ps ps []
      (fun pr hpr => hpr) (fun ms' h' => Option.noConfusion h') ms hms

/-- A concrete engine for witnesses: finds the whole subject once for the
regex `ip`, nothing otherwise. -/
def engFix : RegexEngine := ⟨fun _ r v => if r = str "ip" then [v] else []⟩

/-- A concrete template config with a single parser pair. -/
def cfgFix : TemplateConfig :=
  { patterns := none, parsers := some [(str "f", str "ip")], schema := none }

/-- Witness for C4: the unmatched name `g` is absent; the matched name
`f` is bound to the engine's non-empty result. -/
theorem c4_extraction_binding_witness :
    getKey (str "g") (extractDataFromElement engFix (str "10") cfgFix) = none
    ∧ ([str "10"] ≠ [] ∧ ∃ r, (str "f", r) ∈ [(str "f", str "ip")]
        ∧ [str "10"] = engFix.findall true r (str "10")) :=
  ⟨(c4_extraction_binding engFix (str "10") cfgFix [(str "f", str "ip")] (str "g") rfl).1
      (fun r hr => by
        have h1 : str "g" = str "f" := congrArg Prod.fst (List.mem_singleton.mp hr)
        exact absurd h1 (by decide)),
   (c4_extraction_binding engFix (str "10") cfgFix [(str "f", str "ip")] (str "f") rfl).2
      [str "10"] (by decide)⟩

/-- One true pattern anywhere in the list makes the first-true-pattern
loop succeed. -/
theorem matchesAnyPattern_of_countP {style value : List Char} :
    ∀ ps : List (List Char),
      0 < ps.countP (fun p => evaluatePattern p style value) →
      matchesAnyPattern style value ps = true := by
  intro ps
  induction ps with
  | nil => intro h; simp [List.countP_nil] at h
  | cons p rest ih =>
    intro h
    cases hp : evaluatePattern p style value with
    | true => simp [matchesAnyPattern, hp]
    | false =>
      rw [List.countP_cons] at h
      simp only [hp, Bool.false_eq_true, if_false, Nat.add_zero] at h
      simp only [matchesAnyPattern, hp, Bool.false_eq_true, if_false]
      exact ih h

/-- The element loop appends at most one record per visited element. -/
theorem findObjectsForTemplate_length_le (eng : RegexEngine) (cfg : TemplateConfig)
    (nm : List Char) :
    ∀ els, (findObjectsForTemplate eng cfg nm els).length ≤ els.length := by
  intro els
  induction els with
  | nil => simp [findObjectsForTemplate]
  | cons e rest ih =>
    cases hc : isCandidate e && elementMatchesTemplate e.style e.value cfg with
    | true =>
      simp only [findObjectsForTemplate, hc, if_true, List.length_cons]
      exact Nat.succ_le_succ ih
    | false =>
      simp only [findObjectsForTemplate, hc, Bool.false_eq_true, if_false, List.length_cons]
      exact Nat.le_succ_of_le ih

/-- Claim C5: at most one match record is created per (element, template)
pair — the record list is never longer than the element list, and a
candidate element on which at least TWO of the template's patterns
evaluate true still yields exactly one record (the pattern loop
short-circuits) — while the same element contributes its own record to
each template's entry of the per-template scan independently. -/
theorem c5_one_record_per_pair (eng : RegexEngine) (cfg : TemplateConfig) (nm : List Char) :
    (∀ els, (findObjectsForTemplate eng cfg nm els).length ≤ els.length)
    ∧ (∀ (e : MxElement) (ps : List (List Char)),
        e.tag = str "mxCell" →
        hasSubstr (lower e.style) (str "shape=stencil(") = true →
        cfg.patterns = some ps →
        2 ≤ ps.countP (fun p => evaluatePattern p e.style e.value) →
        (findObjectsForTemplate eng cfg nm [e]).length = 1)
    ∧ (∀ (doc : Option (List MxElement)) (ts : List (List Char × TemplateConfig)),
        (nm, cfg) ∈ ts →
        (nm, findObjectsForTemplateTop eng cfg nm doc) ∈ scanLoaded eng doc ts) := by
  refine ⟨findObjectsForTemplate_length_le eng cfg nm, ?_, ?_⟩
  · intro e ps htag hsty hp h2
    have hcand : isCandidate e = true := by
      unfold isCandidate
      rw [htag, hsty]
      simp
    have hmatch : elementMatchesTemplate e.style e.value cfg = true := by
      unfold elementMatchesTemplate
      rw [hp]
      exact matchesAnyPattern_of_countP ps (lt_of_lt_of_le (by norm_num) h2)
    simp [findObjectsForTemplate, hcand, hmatch]
  · intro doc ts
    induction ts with
    | nil => intro hmem; exact absurd hmem (List.not_mem_nil _)
    | cons t rest ih =>
      intro hmem
      obtain ⟨n0, c0⟩ := t
      rcases List.mem_cons.mp hmem with h | h
      · cases h
        exact List.mem_cons_self _ _
      · exact List.mem_cons_of_mem _ (ih h)

/-- A trivial engine (finds nothing) for witnesses. -/
def engTriv : RegexEngine := ⟨fun _ _ _ => []⟩

/-- A concrete candidate element: an `mxCell` with the stencil marker in
its style, whose search text contains both `net` and `sw`. -/
def elemW : MxElement :=
  { tag := str "mxCell", id := str "1", style := str "shape=stencil(aBc) net",
    value := str "sw", parent := str "0", vertex := str "1", geometry := none }

/-- A config with two patterns that BOTH match `elemW`. -/
def cfgTwo : TemplateConfig :=
  { patterns := some [str "net", str "sw"], parsers := none, schema := none }

/-- Witness for C5: two true patterns, still exactly one record, and the
per-template entry of the scan contains it. -/
theorem c5_one_record_per_pair_witness :
    (findObjectsForTemplate engTriv cfgTwo (str "t") [elemW]).length = 1
    ∧ ((str "t"), findObjectsForTemplateTop engTriv cfgTwo (str "t") (some [elemW]))
        ∈ scanLoaded engTriv (some [elemW]) [(str "t", cfgTwo)] :=
  ⟨(c5_one_record_per_pair engTriv cfgTwo (str "t")).2.1 elemW [str "net", str "sw"]
      rfl (by decide) rfl (by decide),
   (c5_one_record_per_pair engTriv cfgTwo (str "t")).2.2 (some [elemW])
      [(str "t", cfgTwo)] (List.mem_cons_self _ _)⟩

/-- The per-template scan keeps exactly the template names as keys. -/
theorem scanLoaded_keys (eng : RegexEngine) (doc : Option (List MxElement)) :
    ∀ ts, (scanLoaded eng doc ts).map Prod.fst = ts.map Prod.fst := by
  intro ts
  induction ts with
  | nil => rfl
  | cons t rest ih =>
    obtain ⟨n0, c0⟩ := t
    simp [scanLoaded, ih]

/-- With no candidate element in the document, the element loop finds
nothing. -/
theorem findObjectsForTemplate_no_candidates (eng : RegexEngine) (cfg : TemplateConfig)
    (nm : List Char) :
    ∀ els, (∀ e ∈ els, isCandidate e = false) →
      findObjectsForTemplate eng cfg nm els = [] := by
  intro els
  induction els with
  | nil => intro _; rfl
  | cons e rest ih =>
    intro h
    have he : isCandidate e = false := h e (List.mem_cons_self _ _)
    simp only [findObjectsForTemplate, he, Bool.false_and, Bool.false_eq_true, if_false]
    exact ih (fun x hx => h x (List.mem_cons_of_mem _ hx))

/-- With no candidate elements every per-template entry is empty. -/
theorem scanLoaded_snd_empty (eng : RegexEngine) (els : List MxElement)
    (h : ∀ e ∈ els, isCandidate e = false) :
    ∀ ts, ∀ pr ∈ scanLoaded eng (some els) ts, pr.2 = ([] : List ObjInfo) := by
  intro ts
  induction ts with
  | nil => intro pr hpr; exact absurd hpr (List.not_mem_nil _)
  | cons t rest ih =>
    intro pr hpr
    obtain ⟨n0, c0⟩ := t
    rcases List.mem_cons.mp hpr with h1 | h1
    · subst h1
      exact findObjectsForTemplate_no_candidates eng c0 n0 els h
    · exact ih pr h1

/-- Claim C6: a successfully loaded template set yields one entry per
template (same keys, same order), and a document with zero candidate
elements yields an empty list for every template — never an absent key. -/
theorem c6_every_template_has_entry (eng : RegexEngine) (sel : Option (List Char))
    (fn : List Char) (ts : List (List Char × TemplateConfig)) (els : List MxElement) :
    (findStencilsByAllTemplates eng sel (some fn) (some ts) (some els)).map Prod.fst
        = ts.map Prod.fst
    ∧ ((∀ e ∈ els, isCandidate e = false) →
        ∀ pr ∈ findStencilsByAllTemplates eng sel (some fn) (some ts) (some els),
          pr.2 = ([] : List ObjInfo)) := by
  constructor
  · cases ts with
    | nil => rfl
    | cons t rest => exact scanLoaded_keys eng (some els) (t :: rest)
  · intro h pr hpr
    cases ts with
    | nil => exact absurd hpr (List.not_mem_nil _)
    | cons t rest => exact scanLoaded_snd_empty eng els h (t :: rest) pr hpr

/-- A one-template set for witnesses. -/
def tsW : List (List Char × TemplateConfig) := [(str "t", cfgTwo)]

/-- Witness for C6: on an empty document the single template keeps its
key and its entry is the empty list. -/
theorem c6_every_template_has_entry_witness :
    (findStencilsByAllTemplates engTriv none (some (str "f")) (some tsW) (some [])).map
        Prod.fst = tsW.map Prod.fst
    ∧ (str "t", ([] : List ObjInfo)).2 = ([] : List ObjInfo) :=
  ⟨(c6_every_template_has_entry engTriv none (str "f") tsW []).1,
   (c6_every_template_has_entry engTriv none (str "f") tsW []).2
      (fun e he => absurd he (List.not_mem_nil _)) (str "t", []) (by decide)⟩

/-- A scan over an unparseable document yields the all-empty mapping. -/
theorem scanLoaded_none (eng : RegexEngine) :
    ∀ ts, scanLoaded eng none ts
      = ts.map (fun pr => (pr.1, ([] : List ObjInfo))) := by
  intro ts
  induction ts with
  | nil => rfl
  | cons t rest ih =>
    obtain ⟨n0, c0⟩ := t
    simp [scanLoaded, findObjectsForTemplateTop, ih]

/-- Claim C7 (counterexample): a document that fails to parse produces a
result EQUAL to that of a successfully parsed document with no elements
— there is no distinct error value, so callers cannot distinguish
"no matches" from "could not scan". -/
theorem c7_parse_failure_counterexample :
    findStencilsByAllTemplates engTriv none (some (str "f")) (some tsW) none
      = findStencilsByAllTemplates engTriv none (some (str "f")) (some tsW) (some []) := by
  decide

/-- Claim C7 (amended): when the document fails to parse, each
per-template search returns an empty list, so the scan result maps every
template to the empty list; no distinct error value is produced (failure
is only printed), making the result identical to a successful scan with
no matches. -/
theorem c7_parse_failure_empty_lists (eng : RegexEngine) (sel : Option (List Char))
    (fn : List Char) (ts : List (List Char × TemplateConfig)) :
    findStencilsByAllTemplates eng sel (some fn) (some ts) none
      = ts.map (fun pr => (pr.1, ([] : List ObjInfo))) := by
  cases ts with
  | nil => rfl
  | cons t rest => exact scanLoaded_none eng (t :: rest)

/-- Claim C9: with no filename selected, or a missing/unparseable
template file (`none`), or a template file that deserializes to the
empty mapping (`some []`), `find_stencils_by_all_templates` returns the
completely empty mapping — exactly what an empty template set returns,
with no per-template keys. -/
theorem c9_failure_collapses_to_empty (eng : RegexEngine) (sel fn : Option (List Char))
    (tmpl : Option (List (List Char × TemplateConfig))) (doc : Option (List MxElement)) :
    findStencilsByAllTemplates eng none none tmpl doc = []
    ∧ findStencilsByAllTemplates eng sel fn none doc = []
    ∧ findStencilsByAllTemplates eng sel fn (some []) doc = [] := by
  refine ⟨rfl, ?_, ?_⟩
  · cases fn with
    | none => cases sel with
      | none => rfl
      | some s => rfl
    | some f => rfl
  · cases fn with
    | none => cases sel with
      | none => rfl
      | some s => rfl
    | some f => rfl

/-- Fallible version of the extraction loop: the engine's `re.error` on
an uncompilable regex propagates, as the source has no handler around
`re.findall` (src lines 454-462). -/
def extractLoopE (eng : RegexEngineE) (value : List Char)
    (acc : List (List Char × List (List Char))) :
    List (List Char × List Char) → Except (List Char) (List (List Char × List (List Char)))
  | [] => Except.ok acc
  | (name, rgx) :: rest =>
    match eng.findall true rgx value with
    | Except.error er => Except.error er
    | Except.ok ms =>
      if ms.isEmpty then extractLoopE eng value acc rest
      else extractLoopE eng value (setKey name ms acc) rest

/-- Fallible `_extract_data_from_element`. -/
def extractDataFromElementE (eng : RegexEngineE) (value : List Char)
    (cfg : TemplateConfig) : Except (List Char) (List (List Char × List (List Char))) :=
  match cfg.parsers with
  | none => Except.ok []
  | some ps => extractLoopE eng value [] ps

/-- Fallible `_create_object_info`: an extraction error propagates. -/
def createObjectInfoE (eng : RegexEngineE) (e : MxElement) (nm : List Char)
    (cfg : TemplateConfig) : Except (List Char) ObjInfo :=
  match extractDataFromElementE eng e.value cfg with
  | Except.error er => Except.error er
  | Except.ok d =>
    Except.ok
      { id := e.id, value := e.value, style := e.style, parent := e.parent,
        vertex := e.vertex, geometry := e.geometry, matchedType := nm,
        schema := cfg.schema.getD (str "none"), extractedData := d }

/-- Fallible element loop of `_find_objects_for_template`. -/
def findObjectsForTemplateE (eng : RegexEngineE) (cfg : TemplateConfig) (nm : List Char) :
    List MxElement → Except (List Char) (List ObjInfo)
  | [] => Except.ok []
  | e :: rest =>
    if isCandidate e && elementMatchesTemplate e.style e.value cfg then
      match createObjectInfoE eng e nm cfg with
      | Except.error er => Except.error er
      | Except.ok oi =>
        match findObjectsForTemplateE eng cfg nm rest with
        | Except.error er => Except.error er
        | Except.ok os => Except.ok (oi :: os)
    else findObjectsForTemplateE eng cfg nm rest

/-- Fallible per-template scan loop of `find_stencils_by_all_templates`. -/
def scanLoadedE (eng : RegexEngineE) (doc : Option (List MxElement)) :
    List (List Char × TemplateConfig) → Except (List Char) (List (List Char × List ObjInfo))
  | [] => Except.ok []
  | (nm, cfg) :: ts =>
    match (match doc with
           | none => Except.ok []
           | some els => findObjectsForTemplateE eng cfg nm els) with
    | Except.error er => Except.error er
    | Except.ok objs =>
      match scanLoadedE eng doc ts with
      | Except.error er => Except.error er
      | Except.ok rs => Except.ok ((nm, objs) :: rs)

/-- View a total engine as a fallible engine that never raises. -/
def liftEngine (eng : RegexEngine) : RegexEngineE :=
  ⟨fun ci r v => Except.ok (eng.findall ci r v)⟩

/-- The lifted engine never raises. -/
theorem liftEngine_findall (eng : RegexEngine) (ci : Bool) (r v : List Char) :
    (liftEngine eng).findall ci r v = Except.ok (eng.findall ci r v) := rfl

/-- On a never-raising engine the fallible extraction loop computes the
total one: the `Except` pipeline is the same embedding. -/
theorem extractLoopE_lift (eng : RegexEngine) (value : List Char) :
    ∀ ps acc, extractLoopE (liftEngine eng) value acc ps
      = Except.ok (extractLoop eng value acc ps) := by
  intro ps
  induction ps with
  | nil => intro acc; rfl
  | cons pr rest ih =>
    intro acc
    obtain ⟨n, r⟩ := pr
    cases hms : (eng.findall true r value).isEmpty with
    | true =>
      simp only [extractLoopE, extractLoop, liftEngine_findall, hms, if_true]
      exact ih acc
    | false =>
      simp only [extractLoopE, extractLoop, liftEngine_findall, hms,
        Bool.false_eq_true, if_false]
      exact ih _

/-- On a never-raising engine the fallible element loop computes the
total one. -/
theorem findObjectsForTemplateE_lift (eng : RegexEngine) (cfg : TemplateConfig)
    (nm : List Char) :
    ∀ els, findObjectsForTemplateE (liftEngine eng) cfg nm els
      = Except.ok (findObjectsForTemplate eng cfg nm els) := by
  intro els
  induction els with
  | nil => rfl
  | cons e rest ih =>
    cases hc : isCandidate e && elementMatchesTemplate e.style e.value cfg with
    | true =>
      have hext : extractDataFromElementE (liftEngine eng) e.value cfg
          = Except.ok (extractDataFromElement eng e.value cfg) := by
        unfold extractDataFromElementE extractDataFromElement
        cases cfg.parsers with
        | none => rfl
        | some ps => exact extractLoopE_lift eng e.value ps []
      simp only [findObjectsForTemplateE, findObjectsForTemplate, hc, if_true,
        createObjectInfoE, createObjectInfo, hext, ih]
    | false =>
      simp only [findObjectsForTemplateE, findObjectsForTemplate, hc,
        Bool.false_eq_true, if_false, ih]

/-- On a never-raising engine the fallible scan computes the total scan. -/
theorem scanLoadedE_lift (eng : RegexEngine) (doc : Option (List MxElement)) :
    ∀ ts, scanLoadedE (liftEngine eng) doc ts = Except.ok (scanLoaded eng doc ts) := by
  intro ts
  induction ts with
  | nil => rfl
  | cons t rest ih =>
    obtain ⟨n0, c0⟩ := t
    cases doc with
    | none => simp only [scanLoadedE, scanLoaded, findObjectsForTemplateTop, ih]
    | some els =>
      simp only [scanLoadedE, scanLoaded, findObjectsForTemplateTop,
        findObjectsForTemplateE_lift eng c0 n0 els, ih]

/-- A fallible engine raising `re.error` on the uncompilable regex `(`. -/
def engBad : RegexEngineE :=
  ⟨fun _ r _ => if r = str "(" then Except.error (str "bad regex") else Except.ok []⟩

/-- A config whose pattern matches `elemW` but whose parser regex `(` is
uncompilable. -/
def cfgBad : TemplateConfig :=
  { patterns := some [str "net"], parsers := some [(str "f", str "(")], schema := none }

/-- Claim C8 (counterexample): an uncompilable extractor regex does NOT
leave the field empty and let the scan finish — the `re.error` raised by
`re.findall` propagates (no handler exists on the scan path) and the
whole scan aborts with the error. -/
theorem c8_regex_error_counterexample :
    scanLoadedE engBad (some [elemW]) [(str "t", cfgBad)]
      = Except.error (str "bad regex") := rfl

/-- Claim C8 (amended): a template whose config has no `patterns` key
never matches any element (its scan completes normally with an empty
list), but an uncompilable extractor regex is NOT tolerated: the regex
error raised while extracting from the first matched candidate
propagates out of the template's element loop and aborts the scan. -/
theorem c8_config_error_behavior (engT : RegexEngine) (engE : RegexEngineE)
    (nm : List Char) (cfg1 cfg2 : TemplateConfig) :
    (cfg1.patterns = none → ∀ els, findObjectsForTemplate engT cfg1 nm els = [])
    ∧ (∀ (e : MxElement) (els : List MxElement) (er : List Char),
        isCandidate e = true →
        elementMatchesTemplate e.style e.value cfg2 = true →
        extractDataFromElementE engE e.value cfg2 = Except.error er →
        findObjectsForTemplateE engE cfg2 nm (e :: els) = Except.error er) := by
  constructor
  · intro hp els
    induction els with
    | nil => rfl
    | cons e rest ih =>
      have hm : elementMatchesTemplate e.style e.value cfg1 = false := by
        unfold elementMatchesTemplate
        rw [hp]
      simp only [findObjectsForTemplate, hm, Bool.and_false, Bool.false_eq_true, if_false]
      exact ih
  · intro e els er hc hm hex
    simp only [findObjectsForTemplateE, hc, hm, Bool.and_self, if_true]
    unfold createObjectInfoE
    rw [hex]

/-- A config with no `patterns` key. -/
def cfgNoPat : TemplateConfig := { patterns := none, parsers := none, schema := none }

/-- Witness for C8: the patternless config matches nothing on a concrete
candidate, and the bad-regex config aborts the element loop with the
engine's error. -/
theorem c8_config_error_behavior_witness :
    findObjectsForTemplate engTriv cfgNoPat (str "t") [elemW] = []
    ∧ findObjectsForTemplateE engBad cfgBad (str "t") [elemW]
        = Except.error (str "bad regex") :=
  ⟨(c8_config_error_behavior engTriv engBad (str "t") cfgNoPat cfgBad).1 rfl [elemW],
   (c8_config_error_behavior engTriv engBad (str "t") cfgNoPat cfgBad).2 elemW [] (str "bad regex")
      (by decide) (by decide) rfl⟩
